import Mathlib

/-!
Verification development for the marathon-generation pipeline of the
movie-night repository (server/src/services/claudeService.ts and the
marathon route in server/src/routes).

The oracle (the external generative text service) is modelled as explicit
input data: a stage-1 outcome and a per-movie stage-2 outcome function.
Calendar dates (ISO strings in the source) are modelled as integer day
numbers; clock readings (Date.now()) as a natural number of milliseconds.
JSON values (the image of the JavaScript JSON.parse / JSON.stringify pair)
are modelled by the Json type below, with numbers restricted to integers
(the source never relies on fractional numbers in any property we check;
floating point is out of scope).
-/

-- Model of a JavaScript JSON value. The mutual list types replace the
-- nested List occurrences so that decidable equality can be derived.
mutual
inductive Json where
  | null
  | bool (b : Bool)
  | num (n : Int)
  | str (s : String)
  | arr (elements : JsonList)
  | obj (fields : JsonFields)
deriving DecidableEq
inductive JsonList where
  | nil
  | cons (hd : Json) (tl : JsonList)
deriving DecidableEq
inductive JsonFields where
  | nil
  | cons (key : String) (val : Json) (tl : JsonFields)
deriving DecidableEq
end

deriving instance DecidableEq for Except

/-- Decimal digit characters, code points 48 to 57. -/
def isDigitCh (c : Char) : Bool := 48 ≤ c.toNat && c.toNat ≤ 57

/-- The four whitespace characters accepted by strict JSON parsing:
space, tab, line feed, carriage return. -/
def isWsJson (c : Char) : Bool :=
  c.toNat = 32 || c.toNat = 9 || c.toNat = 10 || c.toNat = 13

/-- Whitespace as matched by the backslash-s class of JavaScript regular
expressions: tab, LF, VT, FF, CR, space, NBSP, Ogham space mark, the
U+2000 to U+200A spaces, line and paragraph separators, narrow no-break
space, medium mathematical space, ideographic space, and the zero-width
no-break space U+FEFF. -/
def isWsRegex (c : Char) : Bool :=
  c.toNat = 32 || (9 ≤ c.toNat && c.toNat ≤ 13) || c.toNat = 160
    || c.toNat = 5760 || (8192 ≤ c.toNat && c.toNat ≤ 8202)
    || c.toNat = 8232 || c.toNat = 8233 || c.toNat = 8239
    || c.toNat = 8287 || c.toNat = 12288 || c.toNat = 65279

/-- ASCII control characters 0x00 to 0x1F together with 0x7F: the class
removed or replaced by the repair step of parseJsonResponse. -/
def isCtlChar (c : Char) : Bool := c.toNat ≤ 31 || c.toNat = 127

/-- Fuel-indexed digit renderer; the fuel only bounds the recursion
depth and any fuel above the value itself is enough. -/
def natCharsAux : Nat → Nat → List Char
  | 0, _ => []
  | fuel + 1, n =>
    if n < 10 then [Char.ofNat (48 + n)]
    else natCharsAux fuel (n / 10) ++ [Char.ofNat (48 + n % 10)]

/-- Decimal digits of a natural number, most significant first, as
produced by JavaScript number-to-string conversion for integers. -/
def natChars (n : Nat) : List Char := natCharsAux (n + 1) n

/-- Decimal rendering of an integer, with a leading minus sign when
negative, as produced by JavaScript for integral numbers. -/
def intChars (n : Int) : List Char :=
  if n < 0 then '-' :: natChars (-n).toNat else natChars n.toNat

/-- Lowercase hexadecimal digit for a value below 16. -/
def hexChar (n : Nat) : Char :=
  if n < 10 then Char.ofNat (48 + n) else Char.ofNat (87 + n)

/-- Escape sequence emitted by JSON.stringify for one character of a
string: quote and backslash are backslash-escaped, the five named control
characters use their short escapes, the remaining control characters use
a four-digit lowercase unicode escape, everything else is emitted as is. -/
def escapeChar (c : Char) : List Char :=
  if c = '"' then ['\\', '"']
  else if c = '\\' then ['\\', '\\']
  else if c = '\x08' then ['\\', 'b']
  else if c = '\x09' then ['\\', 't']
  else if c = '\x0a' then ['\\', 'n']
  else if c = '\x0c' then ['\\', 'f']
  else if c = '\x0d' then ['\\', 'r']
  else if c.toNat < 32 then
    ['\\', 'u', '0', '0', hexChar (c.toNat / 16), hexChar (c.toNat % 16)]
  else [c]

/-- Serialized form of a string: surrounding quotes with every character
escaped as JSON.stringify does. -/
def strChars (s : String) : List Char :=
  '"' :: (s.data.map escapeChar).flatten ++ ['"']

-- Serialization of a Json value, exactly the character stream produced
-- by JSON.stringify with no indentation argument: no whitespace, fields
-- kept in order.
-- The three JSON literal keywords as character lists.
def nullLit : List Char := ('n') :: ['u', 'l', 'l']

def trueLit : List Char := ('t') :: ['r', 'u', 'e']

def falseLit : List Char := ('f') :: ['a', 'l', 's', 'e']

mutual
def Json.ser : Json → List Char
  | .null => nullLit
  | .bool true => trueLit
  | .bool false => falseLit
  | .num n => intChars n
  | .str s => strChars s
  | .arr .nil => ['[', ']']
  | .arr (.cons x xs) => '[' :: Json.ser x ++ serElemsTail xs ++ [']']
  | .obj .nil => ['\x7b', '\x7d']
  | .obj (.cons k v fs) =>
      '\x7b' :: strChars k ++ ':' :: Json.ser v ++ serFieldsTail fs ++ ['\x7d']
def serElemsTail : JsonList → List Char
  | .nil => []
  | .cons y ys => ',' :: Json.ser y ++ serElemsTail ys
def serFieldsTail : JsonFields → List Char
  | .nil => []
  | .cons k v fs => ',' :: strChars k ++ ':' :: Json.ser v ++ serFieldsTail fs
end

/-- Value of a hexadecimal digit character, accepting both cases. -/
def hexVal? (c : Char) : Option Nat :=
  if 48 ≤ c.toNat && c.toNat ≤ 57 then some (c.toNat - 48)
  else if 97 ≤ c.toNat && c.toNat ≤ 102 then some (c.toNat - 87)
  else if 65 ≤ c.toNat && c.toNat ≤ 70 then some (c.toNat - 55)
  else none

/-- Decoded character for a single-character escape sequence of JSON. -/
def escDecode (e : Char) : Option Char :=
  if e = '"' then some '"'
  else if e = '\\' then some '\\'
  else if e = '/' then some '/'
  else if e = 'b' then some '\x08'
  else if e = 't' then some '\x09'
  else if e = 'n' then some '\x0a'
  else if e = 'f' then some '\x0c'
  else if e = 'r' then some '\x0d'
  else none

/-- Strict JSON string body parser: the input starts right after the
opening quote; returns the decoded characters and the remainder after the
closing quote. Unescaped control characters and invalid escapes are
rejected, as JSON.parse does. Unicode escapes in the surrogate range are
rejected (the source never produces them; JavaScript would keep a lone
UTF-16 unit, which a unicode scalar value cannot represent). -/
def parseStringRest : List Char → Option (List Char × List Char)
  | [] => none
  | '"' :: rest => some ([], rest)
  | '\\' :: 'u' :: h1 :: h2 :: h3 :: h4 :: rest => do
      let a ← hexVal? h1
      let b ← hexVal? h2
      let c ← hexVal? h3
      let d ← hexVal? h4
      let n := 4096 * a + 256 * b + 16 * c + d
      if 55296 ≤ n && n ≤ 57343 then none
      else (parseStringRest rest).map (fun p => (Char.ofNat n :: p.1, p.2))
  | '\\' :: e :: rest =>
      match escDecode e with
      | some c => (parseStringRest rest).map (fun p => (c :: p.1, p.2))
      | none => none
  | c :: rest =>
      if c.toNat < 32 then none
      else (parseStringRest rest).map (fun p => (c :: p.1, p.2))

/-- Numeric value of a list of decimal digit characters. -/
def digitsToNat (l : List Char) : Nat :=
  l.foldl (fun a c => 10 * a + (c.toNat - 48)) 0

/-- Parser for an unsigned JSON integer: a nonempty digit run with no
leading zero (except the single digit zero itself). -/
def parseNatNum (s : List Char) : Option (Nat × List Char) :=
  let ds := s.takeWhile isDigitCh
  if ds = [] then none
  else if ds.head? = some '0' ∧ 2 ≤ ds.length then none
  else some (digitsToNat ds, s.dropWhile isDigitCh)

/-- Parser for a JSON integer with optional leading minus sign.
Fractional and exponent forms are outside the model (see the header). -/
def parseNumber : List Char → Option (Int × List Char)
  | '-' :: s => (parseNatNum s).map (fun p => (-(p.1 : Int), p.2))
  | s => (parseNatNum s).map (fun p => ((p.1 : Int), p.2))

-- Strict JSON value parser, mirroring JSON.parse. Fuel-indexed and
-- structural in the fuel; the top-level wrapper supplies input length
-- plus one, which suffices because at least one character is consumed
-- before every recursive call.
mutual
def parseValue : Nat → List Char → Option (Json × List Char)
  | 0, _ => none
  | fuel + 1, s =>
    match s with
    | 'n' :: 'u' :: 'l' :: 'l' :: r => some (.null, r)
    | 't' :: 'r' :: 'u' :: 'e' :: r => some (.bool true, r)
    | 'f' :: 'a' :: 'l' :: 's' :: 'e' :: r => some (.bool false, r)
    | '"' :: r => (parseStringRest r).map (fun p => (.str (String.mk p.1), p.2))
    | '[' :: r =>
      (match r.dropWhile isWsJson with
       | ']' :: r2 => some (.arr .nil, r2)
       | r1 => do
          let (v, r2) ← parseValue fuel r1
          let (l, r3) ← parseElemsTail fuel r2
          pure (.arr (.cons v l), r3))
    | '\x7b' :: r =>
      (match r.dropWhile isWsJson with
       | '\x7d' :: r2 => some (.obj .nil, r2)
       | '"' :: r1 => do
          let (k, r2) ← parseStringRest r1
          match r2.dropWhile isWsJson with
          | ':' :: r3 => do
            let (v, r4) ← parseValue fuel (r3.dropWhile isWsJson)
            let (fs, r5) ← parseFieldsTail fuel r4
            pure (.obj (.cons (String.mk k) v fs), r5)
          | _ => none
       | _ => none)
    | _ => (parseNumber s).map (fun p => (.num p.1, p.2))
def parseElemsTail : Nat → List Char → Option (JsonList × List Char)
  | 0, _ => none
  | fuel + 1, s =>
    match s.dropWhile isWsJson with
    | ',' :: r => do
        let (v, r1) ← parseValue fuel (r.dropWhile isWsJson)
        let (l, r2) ← parseElemsTail fuel r1
        pure (.cons v l, r2)
    | ']' :: r => some (.nil, r)
    | _ => none
def parseFieldsTail : Nat → List Char → Option (JsonFields × List Char)
  | 0, _ => none
  | fuel + 1, s =>
    match s.dropWhile isWsJson with
    | ',' :: r =>
      (match r.dropWhile isWsJson with
       | '"' :: r1 => do
          let (k, r2) ← parseStringRest r1
          match r2.dropWhile isWsJson with
          | ':' :: r3 => do
            let (v, r4) ← parseValue fuel (r3.dropWhile isWsJson)
            let (fs, r5) ← parseFieldsTail fuel r4
            pure (.cons (String.mk k) v fs, r5)
          | _ => none
       | _ => none)
    | '\x7d' :: r => some (.nil, r)
    | _ => none
end

/-- Model of JSON.parse on a character list: parse one value surrounded
by optional whitespace; anything left over is an error. -/
def parseJsonChars (l : List Char) : Option Json :=
  match parseValue (l.length + 1) (l.dropWhile isWsJson) with
  | some (v, rest) => if rest.dropWhile isWsJson = [] then some v else none
  | none => none

/-- Candidate extraction of parseJsonResponse: the substring from the
first opening brace through the last closing brace, exactly the match of
the greedy brace regular expression in the source; none when the text
has no such span. -/
def extractCandidate (s : List Char) : Option (List Char) :=
  let t := s.dropWhile (fun c => c != '\x7b')
  let u := (t.reverse.dropWhile (fun c => c != '\x7d')).reverse
  if u.isEmpty then none else some u

/-- Model of the global regex replace that deletes a comma standing
immediately before (optional whitespace and) a closing brace or bracket.
A global regex replace resumes scanning after the replaced span; here the
scan resumes right after the deleted comma instead, which is equivalent
because every match starts with a comma and the kept span holds only
whitespace and one bracket, so no match can begin inside it. -/
def stripTrailingCommas : List Char → List Char
  | [] => []
  | ',' :: rest =>
    (match rest.dropWhile isWsRegex with
     | '\x7d' :: _ => stripTrailingCommas rest
     | ']' :: _ => stripTrailingCommas rest
     | _ => ',' :: stripTrailingCommas rest)
  | c :: rest => c :: stripTrailingCommas rest

/-- Decides whether the text contains any occurrence of the trailing
comma pattern: a comma followed by optional whitespace and a closing
brace or bracket. -/
def hasTrailingCommaPat : List Char → Bool
  | [] => false
  | ',' :: rest =>
    (match rest.dropWhile isWsRegex with
     | '\x7d' :: _ => true
     | ']' :: _ => true
     | _ => false) || hasTrailingCommaPat rest
  | _ :: rest => hasTrailingCommaPat rest

/-- The repair the source applies on the retry: every ASCII control
character is replaced by a space. -/
def replaceCtlChars (s : List Char) : List Char :=
  s.map (fun c => if isCtlChar c then ' ' else c)

/-- The repair described by the specification: every ASCII control
character is removed. -/
def removeCtlChars (s : List Char) : List Char :=
  s.filter (fun c => !isCtlChar c)

/-- Model of the private parseJsonResponse helper: extract the brace
span, strip trailing commas, strictly parse; on failure replace control
characters by spaces and parse once more; on a second failure the parse
error propagates. -/
def parseJsonResponse (text : String) : Except String Json :=
  match extractCandidate text.data with
  | none => .error ("No JSON found in response")
  | some jsonStr =>
    let jsonStr := stripTrailingCommas jsonStr
    match parseJsonChars jsonStr with
    | some j => .ok j
    | none =>
      match parseJsonChars (replaceCtlChars jsonStr) with
      | some j => .ok j
      | none => .error ("SyntaxError")

/-- The five-step procedure as the specification words it, parameterized
by the step-4 repair so that the stated removal semantics and the
implemented replacement semantics can be compared. -/
def responseParserSteps (repairStep : List Char → List Char) (text : String) :
    Except String Json :=
  match extractCandidate text.data with
  | none => .error ("No JSON found in response")
  | some candidate =>
    let candidate := stripTrailingCommas candidate
    match parseJsonChars candidate with
    | some j => .ok j
    | none =>
      match parseJsonChars (repairStep candidate) with
      | some j => .ok j
      | none => .error ("SyntaxError")

/-- Library index record passed to generateMarathon (the movieLibrary
array elements). Ratings are modelled as integers; the pipeline never
computes with them. -/
structure LibMovie where
  id : String
  title : String
  year : Int
  genres : List String
  rating : Int
  contentRating : String
  duration : Int
  summary : Option String
deriving DecidableEq

/-- One phase of the preferences. Its fields only feed prompt text. -/
structure MarathonPhase where
  name : String
  startDate : String
  endDate : String
  audience : String
deriving DecidableEq

/-- The drinkPreference input, a string, an array of strings, or absent,
matching the TypeScript union type. -/
inductive DrinkPrefVal where
  | undef
  | str (s : String)
  | arr (tags : List String)
deriving DecidableEq

/-- The preferences object accepted by generateMarathon. Dates are day
numbers standing for the ISO date strings of the source. -/
structure Preferences where
  occasion : Option String
  startDate : Option Int
  endDate : Option Int
  phases : Option (List MarathonPhase)
  vibe : Option (List String)
  drinkPreference : DrinkPrefVal
  mustInclude : Option String
  avoid : Option String
  additionalNotes : Option String
deriving DecidableEq

/-- One entry of the stage-1 selection response. -/
structure SelEntry where
  movieId : String
  date : String
  phase : Option String
  aiReason : Option String
deriving DecidableEq

/-- The parsed stage-1 selection response: name, holiday and the entry
list. -/
structure Selection where
  name : Option String
  holiday : Option String
  entries : List SelEntry
deriving DecidableEq

/-- A schedule entry after stage 2. The drinks and food fields hold the
raw parsed JSON values the source spreads into the entry; none models an
undefined field. -/
structure EnrichedEntry where
  movieId : String
  date : String
  phase : Option String
  aiReason : Option String
  drinks : Option Json
  food : Option Json
deriving DecidableEq

/-- The value generateMarathon resolves with. It carries no identity and
no timestamps; those are added by the route. -/
structure MarathonOut where
  name : String
  holiday : String
  startDate : Int
  endDate : Int
  entries : List EnrichedEntry
deriving DecidableEq

/-- Trace record of one outbound oracle call, carrying the data the
claims speak about: the requested selection count for stage 1, and the
movie id, occasion string and drink-preference string for stage 2. -/
inductive OracleCall where
  | stage1 (pickCount : Int)
  | stage2 (movieId : String) (occasion : String) (drinkPref : String)
deriving DecidableEq

/-- The behaviour of the oracle during one pipeline run: the outcome of
the single stage-1 call and the outcome of the stage-2 call for each
movie (either a raised error or the raw response text). -/
structure OracleRun where
  stage1 : Except String Selection
  stage2 : LibMovie → String → String → Except String String

/-- Day number of a millisecond clock reading, as taking the date part
of an ISO timestamp does. -/
def dayOfMs (nowMs : Nat) : Int := ((nowMs / 86400000 : Nat) : Int)

/-- Normalized start date: the given start date, or the current date
when absent. -/
def normStartDate (p : Preferences) (nowMs : Nat) : Int :=
  p.startDate.getD (dayOfMs nowMs)

/-- Normalized end date: the given end date, or the date seven days
after the current clock reading when absent. -/
def normEndDate (p : Preferences) (nowMs : Nat) : Int :=
  p.endDate.getD (dayOfMs (nowMs + 7 * 86400000))

/-- The day count the source computes: the ceiling of the millisecond
difference divided by one day, plus one. Both dates are midnights, so
the ceiling is exact. The ceiling of an integer quotient x over d is the
negated floor quotient of negated x. -/
def computeNumDays (p : Preferences) (nowMs : Nat) : Int :=
  -((-(normEndDate p nowMs * (1000 * 60 * 60 * 24) -
       normStartDate p nowMs * (1000 * 60 * 60 * 24))) / (1000 * 60 * 60 * 24)) + 1

/-- The movie count requested from the stage-1 oracle call: the minimum
of the day count and the library size. -/
def pickTarget (numDays : Int) (librarySize : Nat) : Int :=
  min numDays (librarySize : Int)

/-- The drink-preference string for stage 2: an array joins with comma
and space, a string passes through unless empty, and an absent or empty
string falls back to varied. -/
def derivedDrinkPref : DrinkPrefVal → String
  | .arr tags => String.intercalate (", ") tags
  | .str s => if s = "" then ("varied") else s
  | .undef => ("varied")

/-- JavaScript string-or-default: the default is used when the value is
undefined or the empty string, the two falsy string cases. -/
def strOrDefault (v : Option String) (d : String) : String :=
  match v with
  | some s => if s = "" then d else s
  | none => d

/-- Lookup in the Map built from the library: a later duplicate id
overwrites an earlier one, so the last match wins. -/
def movieFind (lib : List LibMovie) (id : String) : Option LibMovie :=
  lib.reverse.find? (fun m => m.id == id)

/-- Property read on a parsed JSON value: the last field with the given
key on an object (JSON.parse keeps the last duplicate), undefined on
anything else. -/
def fieldsGetLast (fs : JsonFields) (k : String) (acc : Option Json) : Option Json :=
  match fs with
  | .nil => acc
  | .cons k2 v tl => fieldsGetLast tl k (if k2 == k then some v else acc)

/-- Field access used on the stage-2 parsed response. -/
def jsGet (j : Json) (k : String) : Option Json :=
  match j with
  | .obj fs => fieldsGetLast fs k none
  | _ => none

/-- Model of the private generateMoviePairings helper: one oracle call
followed by parseJsonResponse, either of which can fail. -/
def generateMoviePairings (oracle : LibMovie → String → String → Except String String)
    (movie : LibMovie) (occasion : String) (drinkPref : String) : Except String Json :=
  match oracle movie occasion drinkPref with
  | .error e => .error e
  | .ok text => parseJsonResponse text

/-- The validation step of generateMarathon: keep exactly the entries of
the stage-1 selection whose movieId is a member of the library id set,
in the order the selection returned them. -/
def validEntriesOf (lib : List LibMovie) (selection : Selection) : List SelEntry :=
  selection.entries.filter (fun e => (lib.map (fun m => m.id)).contains e.movieId)

/-- The entry returned when the pairing step failed or the movie was not
found: the original entry with an empty drinks array and a null food,
exactly the catch branch of the source. -/
def emptyPairingEntry (e : SelEntry) : EnrichedEntry :=
  { movieId := e.movieId, date := e.date, phase := e.phase, aiReason := e.aiReason,
    drinks := some (.arr .nil), food := some .null }

/-- The entry returned when the pairing step succeeded: the original
entry with the drinks and food properties read off the parsed response,
with no shape validation, so a missing property stays undefined. -/
def pairedEntry (e : SelEntry) (pairings : Json) : EnrichedEntry :=
  { movieId := e.movieId, date := e.date, phase := e.phase, aiReason := e.aiReason,
    drinks := jsGet pairings ("drinks"), food := jsGet pairings ("food") }

/-- The per-entry stage-2 step: find the movie, call the pairing
generator, and spread the parsed drinks and food fields into the entry;
any failure is caught here and yields the empty-pairing entry. -/
def enrichEntry (lib : List LibMovie)
    (oracle : LibMovie → String → String → Except String String)
    (occasion : String) (drinkPref : String) (e : SelEntry) : EnrichedEntry :=
  match movieFind lib e.movieId with
  | none => emptyPairingEntry e
  | some m =>
    match generateMoviePairings oracle m occasion drinkPref with
    | .ok pairings => pairedEntry e pairings
    | .error _ => emptyPairingEntry e

/-- Partition into the fixed batches of five the stage-2 loop processes,
in order. -/
def batchesOfAux : Nat → List α → List (List α)
  | _, [] => []
  | 0, _ => []
  | fuel + 1, a :: t => (a :: t).take 5 :: batchesOfAux fuel ((a :: t).drop 5)

/-- Partition into the fixed batches of five the stage-2 loop processes,
in order. The list length bounds the recursion depth. -/
def batchesOf (l : List α) : List (List α) := batchesOfAux l.length l

/-- Model of generateMarathon: credential check, date normalization, the
stage-1 selection call, validation of returned movie ids against the
library, batched stage-2 enrichment, and assembly of the result object.
Returns the outcome together with the trace of oracle calls issued. -/
def generateMarathon (p : Preferences) (movieLibrary : List LibMovie) (hasKey : Bool)
    (nowMs : Nat) (run : OracleRun) : Except String MarathonOut × List OracleCall :=
  if hasKey = false then (.error ("Anthropic API key not configured"), [])
  else
    let startDate := normStartDate p nowMs
    let endDate := normEndDate p nowMs
    let numDays := computeNumDays p nowMs
    let pick := pickTarget numDays movieLibrary.length
    match run.stage1 with
    | .error e => (.error e, [.stage1 pick])
    | .ok selection =>
      let validEntries := validEntriesOf movieLibrary selection
      let drinkPref := derivedDrinkPref p.drinkPreference
      let occasionStr := strOrDefault p.occasion ("movie")
      let entriesWithPairings :=
        ((batchesOf validEntries).map
          (fun batch => batch.map (enrichEntry movieLibrary run.stage2 occasionStr drinkPref))).flatten
      let stage2Calls := validEntries.filterMap
        (fun e => (movieFind movieLibrary e.movieId).map
          (fun m => OracleCall.stage2 m.id occasionStr drinkPref))
      (.ok { name := strOrDefault selection.name (strOrDefault p.occasion ("Movie") ++ (" Marathon")),
             holiday := strOrDefault selection.holiday ("custom"),
             startDate := startDate, endDate := endDate,
             entries := entriesWithPairings },
       .stage1 pick :: stage2Calls)

/-- The marathon object persisted by the route: the generateMarathon
result with an identity and creation and update timestamps each taken
from its own clock reading. -/
structure StoredMarathon where
  id : String
  name : String
  holiday : String
  startDate : Int
  endDate : Int
  entries : List EnrichedEntry
  createdAt : Nat
  updatedAt : Nat
deriving DecidableEq

/-- Model of the assembly in the marathon route: spread the result and
add id, createdAt and updatedAt, each evaluated from a separate call to
the millisecond clock in the order the object literal is written, so a
clock tick between any two of the three reads is representable. -/
def assembleStoredMarathon (result : MarathonOut) (idMs createdMs updatedMs : Nat) :
    StoredMarathon :=
  { id := ("marathon-") ++ String.mk (natChars idMs),
    name := result.name, holiday := result.holiday,
    startDate := result.startDate, endDate := result.endDate,
    entries := result.entries, createdAt := createdMs, updatedAt := updatedMs }

/-- The non-pairing fields of an enriched entry, for stating that stage
2 only attaches pairing data. -/
def entrySkeleton (e : EnrichedEntry) : SelEntry :=
  { movieId := e.movieId, date := e.date, phase := e.phase, aiReason := e.aiReason }

-- Concrete fixtures for evaluating the pipeline on closed inputs.

/-- A first library movie for concrete runs. -/
def wMovie1 : LibMovie := ⟨("m1"), ("A"), 2000, [], 8, ("PG"), 100, none⟩

/-- A second library movie for concrete runs. -/
def wMovie2 : LibMovie := ⟨("m2"), ("B"), 2001, [], 7, ("PG"), 90, none⟩

/-- A two-movie library for concrete runs. -/
def wLib : List LibMovie := [wMovie1, wMovie2]

/-- A stage-1 selection holding one hallucinated movie id between two
valid ones. -/
def wSel : Selection :=
  ⟨some ("X"), none,
   [⟨("m1"), ("2025-12-20"), none, none⟩,
    ⟨("ghost-99"), ("2025-12-21"), none, none⟩,
    ⟨("m2"), ("2025-12-22"), none, none⟩]⟩

/-- A well-formed stage-2 response text. -/
def wPairText : String := ("\x7b\"drinks\":[1],\"food\":null\x7d")

/-- An oracle run whose pairing call fails for the first movie and
succeeds for every other. -/
def wRun : OracleRun :=
  ⟨.ok wSel, fun mv _ _ => if mv.id == ("m1") then .error ("boom") else .ok wPairText⟩

/-- Concrete preferences with both dates given and an array drink
preference. -/
def wPrefs : Preferences :=
  ⟨some ("christmas"), some 0, some 2, none, none,
   .arr [("eggnog"), ("cocoa")], none, none, none⟩

/-- A third library movie, giving a three-movie library. -/
def wMovie3 : LibMovie := ⟨("m3"), ("C"), 2002, [], 9, ("R"), 120, none⟩

/-- A three-movie library for the selection-target scenario. -/
def wLib3 : List LibMovie := [wMovie1, wMovie2, wMovie3]

/-- A stage-1 selection that omits both the name and the holiday tag. -/
def wSelNoName : Selection :=
  ⟨none, none,
   [⟨("m1"), ("2025-12-20"), none, none⟩,
    ⟨("ghost-99"), ("2025-12-21"), none, none⟩,
    ⟨("m2"), ("2025-12-22"), none, none⟩]⟩

/-- The fixture oracle run with the nameless selection. -/
def wRun2 : OracleRun :=
  ⟨.ok wSelNoName, fun mv _ _ => if mv.id == ("m1") then .error ("boom") else .ok wPairText⟩

/-- The marathon the nameless-selection fixtures produce. -/
def wMarathon2 : MarathonOut :=
  ⟨("christmas Marathon"), ("custom"), 0, 2,
   [⟨("m1"), ("2025-12-20"), none, none, some (.arr .nil), some .null⟩,
    ⟨("m2"), ("2025-12-22"), none, none, some (.arr (.cons (.num 1) .nil)), some .null⟩]⟩

/-- The marathon the fixtures produce. -/
def wMarathon : MarathonOut :=
  ⟨("X"), ("custom"), 0, 2,
   [⟨("m1"), ("2025-12-20"), none, none, some (.arr .nil), some .null⟩,
    ⟨("m2"), ("2025-12-22"), none, none, some (.arr (.cons (.num 1) .nil)), some .null⟩]⟩

theorem takeWhile_append_all {α} (p : α → Bool) (a r : List α)
    (ha : ∀ c ∈ a, p c = true) :
    (a ++ r).takeWhile p = a ++ r.takeWhile p := by
  induction a with
  | nil => simp
  | cons x t ih =>
    have hx := ha x (by simp)
    simp only [List.cons_append, List.takeWhile_cons, hx, if_true]
    rw [ih (fun c hc => ha c (by simp [hc]))]

theorem dropWhile_append_all {α} (p : α → Bool) (a r : List α)
    (ha : ∀ c ∈ a, p c = true) :
    (a ++ r).dropWhile p = r.dropWhile p := by
  induction a with
  | nil => simp
  | cons x t ih =>
    have hx := ha x (by simp)
    simp only [List.cons_append, List.dropWhile_cons, hx, if_true]
    exact ih (fun c hc => ha c (by simp [hc]))

theorem dropWhile_of_takeWhile_nil {α} (p : α → Bool) (r : List α)
    (h : r.takeWhile p = []) : r.dropWhile p = r := by
  cases r with
  | nil => rfl
  | cons x t =>
    by_cases hp : p x = true
    · simp [List.takeWhile_cons, hp] at h
    · simp only [Bool.not_eq_true] at hp
      simp [List.dropWhile_cons, hp]

theorem dropWhile_cons_of_neg {α} (p : α → Bool) (x : α) (t : List α)
    (h : p x = false) : (x :: t).dropWhile p = x :: t := by
  simp [List.dropWhile_cons, h]

theorem digit_char_facts :
    ∀ m, m < 10 → isDigitCh (Char.ofNat (48 + m)) = true ∧
      (Char.ofNat (48 + m)).toNat = 48 + m := by decide

theorem natCharsAux_fuel (n : Nat) : ∀ f1 f2, n < f1 → n < f2 →
    natCharsAux f1 n = natCharsAux f2 n := by
  induction n using Nat.strong_induction_on with
  | _ n ih =>
    intro f1 f2 h1 h2
    obtain ⟨g1, rfl⟩ : ∃ g, f1 = g + 1 := ⟨f1 - 1, by omega⟩
    obtain ⟨g2, rfl⟩ : ∃ g, f2 = g + 1 := ⟨f2 - 1, by omega⟩
    by_cases h : n < 10
    · simp [natCharsAux, h]
    · simp only [natCharsAux, h, if_neg, if_false]
      rw [ih (n / 10) (by omega) g1 g2 (by omega) (by omega)]

theorem natChars_step (n : Nat) : natChars n =
    if n < 10 then [Char.ofNat (48 + n)]
    else natChars (n / 10) ++ [Char.ofNat (48 + n % 10)] := by
  show natCharsAux (n + 1) n = _
  by_cases h : n < 10
  · simp [natCharsAux, h]
  · simp only [natCharsAux, h, if_false]
    rw [natCharsAux_fuel (n / 10) n (n / 10 + 1) (by omega) (by omega)]
    rfl

theorem natChars_all_digits (n : Nat) : ∀ c ∈ natChars n, isDigitCh c = true := by
  induction n using Nat.strong_induction_on with
  | _ n ih =>
    rw [natChars_step]
    by_cases h : n < 10
    · rw [if_pos h]
      intro c hc
      simp at hc
      subst hc
      exact (digit_char_facts n h).1
    · rw [if_neg h]
      intro c hc
      rcases List.mem_append.1 hc with h1 | h2
      · exact ih (n / 10) (by omega) c h1
      · simp at h2
        subst h2
        exact (digit_char_facts (n % 10) (by omega)).1

theorem natChars_ne_nil (n : Nat) : natChars n ≠ [] := by
  rw [natChars_step]
  by_cases h : n < 10 <;> simp [h]

theorem natChars_head_pos (n : Nat) (hn : 1 ≤ n) : (natChars n).head? ≠ some '0' := by
  induction n using Nat.strong_induction_on with
  | _ n ih =>
    rw [natChars_step]
    by_cases h : n < 10
    · rw [if_pos h]
      simp only [List.head?_cons, ne_eq, Option.some.injEq]
      intro hc
      have hcn := congrArg Char.toNat hc
      rw [(digit_char_facts n h).2] at hcn
      have h0 : ('0').toNat = 48 := by decide
      omega
    · rw [if_neg h]
      obtain ⟨c, t, hct⟩ := List.exists_cons_of_ne_nil (natChars_ne_nil (n / 10))
      have hh := ih (n / 10) (by omega) (by omega)
      rw [hct] at hh ⊢
      simpa using hh

theorem digitsToNat_append_digit (a : List Char) (c : Char) :
    digitsToNat (a ++ [c]) = 10 * digitsToNat a + (c.toNat - 48) := by
  simp [digitsToNat, List.foldl_append]

theorem digitsToNat_natChars (n : Nat) : digitsToNat (natChars n) = n := by
  induction n using Nat.strong_induction_on with
  | _ n ih =>
    rw [natChars_step]
    by_cases h : n < 10
    · rw [if_pos h]
      simp [digitsToNat, (digit_char_facts n h).2]
    · rw [if_neg h]
      rw [digitsToNat_append_digit, ih (n / 10) (by omega),
          (digit_char_facts (n % 10) (by omega)).2]
      omega

theorem natChars_inj {m n : Nat} (h : natChars m = natChars n) : m = n := by
  have := congrArg digitsToNat h
  rwa [digitsToNat_natChars, digitsToNat_natChars] at this

theorem parseNatNum_natChars (n : Nat) (r : List Char)
    (hr : r.takeWhile isDigitCh = []) :
    parseNatNum (natChars n ++ r) = some (n, r) := by
  have htw : (natChars n ++ r).takeWhile isDigitCh = natChars n := by
    rw [takeWhile_append_all _ _ _ (natChars_all_digits n), hr, List.append_nil]
  have hdw : (natChars n ++ r).dropWhile isDigitCh = r := by
    rw [dropWhile_append_all _ _ _ (natChars_all_digits n),
        dropWhile_of_takeWhile_nil _ _ hr]
  unfold parseNatNum
  simp only [htw, hdw]
  rw [if_neg (natChars_ne_nil n)]
  rw [if_neg]
  · rw [digitsToNat_natChars]
  · rintro ⟨h0, hlen⟩
    by_cases h : n < 10
    · rw [natChars_step, if_pos h] at hlen
      simp at hlen
    · exact natChars_head_pos n (by omega) h0

theorem parseNumber_intChars (n : Int) (r : List Char)
    (hr : r.takeWhile isDigitCh = []) :
    parseNumber (intChars n ++ r) = some (n, r) := by
  by_cases hneg : n < 0
  · rw [intChars, if_pos hneg]
    show parseNumber ('-' :: (natChars (-n).toNat ++ r)) = some (n, r)
    have harm : ∀ s, parseNumber ('-' :: s) =
        (parseNatNum s).map (fun p => (-(p.1 : Int), p.2)) := fun s => rfl
    rw [harm, parseNatNum_natChars _ _ hr, Option.map_some']
    have hv : -(((-n).toNat : Nat) : Int) = n := by omega
    rw [hv]
  · rw [intChars, if_neg hneg]
    obtain ⟨c, t, hct⟩ := List.exists_cons_of_ne_nil (natChars_ne_nil n.toNat)
    have hdig : isDigitCh c = true := natChars_all_digits n.toNat c (by rw [hct]; simp)
    unfold parseNumber
    split
    · next s heq =>
      exfalso
      rw [hct] at heq
      simp at heq
      obtain ⟨hc, -⟩ := heq
      rw [hc] at hdig
      simp [isDigitCh] at hdig
    · rw [parseNatNum_natChars _ _ hr, Option.map_some']
      have hv : ((n.toNat : Nat) : Int) = n := by omega
      rw [hv]

theorem hexVal_hexChar : ∀ m, m < 16 → hexVal? (hexChar m) = some m := by decide

theorem parseStringRest_step (c : Char) (tail : List Char) :
    parseStringRest (escapeChar c ++ tail) =
      (parseStringRest tail).map (fun p => (c :: p.1, p.2)) := by
  by_cases h1 : c = '"'
  · subst h1; rfl
  by_cases h2 : c = '\\'
  · subst h2; rfl
  by_cases h3 : c = '\x08'
  · subst h3; rfl
  by_cases h4 : c = '\x09'
  · subst h4; rfl
  by_cases h5 : c = '\x0a'
  · subst h5; rfl
  by_cases h6 : c = '\x0c'
  · subst h6; rfl
  by_cases h7 : c = '\x0d'
  · subst h7; rfl
  by_cases h32 : c.toNat < 32
  · rw [escapeChar, if_neg h1, if_neg h2, if_neg h3, if_neg h4, if_neg h5,
        if_neg h6, if_neg h7, if_pos h32]
    show parseStringRest ('\\' :: 'u' :: '0' :: '0' ::
        hexChar (c.toNat / 16) :: hexChar (c.toNat % 16) :: tail) = _
    have harm3 : ∀ (g1 g2 g3 g4 : Char) (rest : List Char),
        parseStringRest ('\\' :: 'u' :: g1 :: g2 :: g3 :: g4 :: rest) = (do
          let a ← hexVal? g1
          let b ← hexVal? g2
          let cc ← hexVal? g3
          let d ← hexVal? g4
          let n := 4096 * a + 256 * b + 16 * cc + d
          if 55296 ≤ n && n ≤ 57343 then none
          else (parseStringRest rest).map (fun p => (Char.ofNat n :: p.1, p.2))) :=
      fun _ _ _ _ _ => rfl
    have e0 : hexVal? ('0') = some 0 := by decide
    rw [harm3, e0, hexVal_hexChar (c.toNat / 16) (by omega),
        hexVal_hexChar (c.toNat % 16) (by omega)]
    simp only [Option.bind_eq_bind, Option.some_bind]
    rw [if_neg]
    · have hn : 4096 * 0 + 256 * 0 + 16 * (c.toNat / 16) + c.toNat % 16 = c.toNat := by
        omega
      rw [hn, Char.ofNat_toNat]
    · simp only [Bool.and_eq_true, decide_eq_true_eq, not_and]
      omega
  · rw [escapeChar, if_neg h1, if_neg h2, if_neg h3, if_neg h4, if_neg h5,
        if_neg h6, if_neg h7, if_neg h32]
    show parseStringRest (c :: tail) = _
    rw [parseStringRest.eq_def]
    split
    · rename_i heq
      exact absurd heq (by simp)
    · rename_i heq
      rw [List.cons.injEq] at heq
      exact absurd heq.1 h1
    · rename_i heq
      rw [List.cons.injEq] at heq
      exact absurd heq.1 h2
    · rename_i heq
      rw [List.cons.injEq] at heq
      exact absurd heq.1 h2
    · rename_i heq
      rw [List.cons.injEq] at heq
      obtain ⟨hc, ht⟩ := heq
      subst hc
      subst ht
      rw [if_neg h32]

theorem parseStringRest_round (l r : List Char) :
    parseStringRest ((l.map escapeChar).flatten ++ '"' :: r) = some (l, r) := by
  induction l with
  | nil => rfl
  | cons c t ih =>
    simp only [List.map_cons, List.flatten_cons, List.append_assoc]
    rw [parseStringRest_step, ih]
    rfl

theorem intChars_head_shape (n : Int) :
    ∃ c t, intChars n = c :: t ∧ (c = '-' ∨ isDigitCh c = true) := by
  rw [intChars]
  by_cases hneg : n < 0
  · rw [if_pos hneg]
    exact ⟨'-', _, rfl, Or.inl rfl⟩
  · rw [if_neg hneg]
    obtain ⟨c, t, hct⟩ := List.exists_cons_of_ne_nil (natChars_ne_nil n.toNat)
    exact ⟨c, t, hct, Or.inr (natChars_all_digits n.toNat c (by rw [hct]; simp))⟩

theorem ser_head_shape (v : Json) :
    ∃ c t, Json.ser v = c :: t ∧ isWsJson c = false ∧ c ≠ ']' := by
  cases v with
  | null => exact ⟨'n', _, rfl, by decide, by decide⟩
  | bool b => cases b with
    | true => exact ⟨'t', _, rfl, by decide, by decide⟩
    | false => exact ⟨'f', _, rfl, by decide, by decide⟩
  | num n =>
    obtain ⟨c, t, hct, hcl⟩ := intChars_head_shape n
    refine ⟨c, t, hct, ?_, ?_⟩
    · rcases hcl with h | h
      · subst h; decide
      · simp [isDigitCh] at h
        simp [isWsJson]
        omega
    · rcases hcl with h | h
      · subst h; decide
      · simp [isDigitCh] at h
        intro hc
        subst hc
        revert h
        decide
  | str s => exact ⟨'"', _, rfl, by decide, by decide⟩
  | arr xs => cases xs with
    | nil => exact ⟨'[', _, rfl, by decide, by decide⟩
    | cons x t => exact ⟨'[', _, rfl, by decide, by decide⟩
  | obj fs => cases fs with
    | nil => exact ⟨'\x7b', _, rfl, by decide, by decide⟩
    | cons k v t => exact ⟨'\x7b', _, rfl, by decide, by decide⟩

theorem ser_length_pos (v : Json) : 1 ≤ (Json.ser v).length := by
  obtain ⟨c, t, hct, -, -⟩ := ser_head_shape v
  rw [hct]
  simp

theorem takeWhile_cons_false {p : Char → Bool} (c : Char) (t : List Char)
    (h : p c = false) : (c :: t).takeWhile p = [] := by
  simp [List.takeWhile_cons, h]

theorem elemsTail_bracket_takeWhile (xs : JsonList) (r : List Char) :
    (serElemsTail xs ++ ']' :: r).takeWhile isDigitCh = [] := by
  cases xs with
  | nil => exact takeWhile_cons_false _ _ (by decide)
  | cons y ys => exact takeWhile_cons_false _ _ (by decide)

theorem fieldsTail_brace_takeWhile (fs : JsonFields) (r : List Char) :
    (serFieldsTail fs ++ '\x7d' :: r).takeWhile isDigitCh = [] := by
  cases fs with
  | nil => exact takeWhile_cons_false _ _ (by decide)
  | cons k v tl => exact takeWhile_cons_false _ _ (by decide)

mutual
theorem parseValue_ser (v : Json) : ∀ (fuel : Nat) (r : List Char),
    (Json.ser v).length ≤ fuel → r.takeWhile isDigitCh = [] →
    parseValue fuel (Json.ser v ++ r) = some (v, r) := by
  cases v with
  | null =>
    intro fuel r hf hr
    obtain ⟨G, rfl⟩ : ∃ g, fuel = g + 1 :=
      ⟨fuel - 1, by simp [Json.ser, nullLit] at hf; omega⟩
    rfl
  | bool b =>
    intro fuel r hf hr
    obtain ⟨G, rfl⟩ : ∃ g, fuel = g + 1 :=
      ⟨fuel - 1, by cases b <;> simp [Json.ser, trueLit, falseLit] at hf <;> omega⟩
    cases b <;> rfl
  | num n =>
    intro fuel r hf hr
    obtain ⟨G, rfl⟩ : ∃ g, fuel = g + 1 := ⟨fuel - 1, by
      have := ser_length_pos (.num n); omega⟩
    obtain ⟨c, t, hct, hcl⟩ := intChars_head_shape n
    have hcn : 34 ≤ c.toNat ∧ c.toNat ≤ 57 ∧ c.toNat ≠ 34 ∧ c.toNat ≠ 91 := by
      rcases hcl with h | h
      · subst h
        refine ⟨by decide, by decide, by decide, by decide⟩
      · simp [isDigitCh] at h
        omega
    show parseValue (G + 1) (intChars n ++ r) = _
    rw [parseValue.eq_def]
    split
    · rename_i heq
      exact absurd heq (by omega)
    · split
      all_goals try (exfalso; rename_i heq; rw [hct] at heq; simp at heq; obtain ⟨hc, -⟩ := heq; subst hc; revert hcn; decide)
      rw [parseNumber_intChars n r hr]
      rfl
  | str s =>
    intro fuel r hf hr
    obtain ⟨G, rfl⟩ : ∃ g, fuel = g + 1 := ⟨fuel - 1, by
      have := ser_length_pos (.str s); omega⟩
    cases s with
    | mk d =>
      show parseValue (G + 1) (strChars (String.mk d) ++ r) = _
      have hshape : strChars (String.mk d) ++ r =
          '"' :: (((String.mk d).data.map escapeChar).flatten ++ '"' :: r) := by
        simp [strChars]
      rw [hshape]
      have harm : ∀ X, parseValue (G + 1) ('"' :: X) =
          (parseStringRest X).map (fun p => (.str (String.mk p.1), p.2)) := fun _ => rfl
      rw [harm, parseStringRest_round]
      rfl
  | arr xs =>
    cases xs with
    | nil =>
      intro fuel r hf hr
      obtain ⟨G, rfl⟩ : ∃ g, fuel = g + 1 := ⟨fuel - 1, by simp [Json.ser] at hf; omega⟩
      rfl
    | cons x tl =>
      intro fuel r hf hr
      obtain ⟨G, rfl⟩ : ∃ g, fuel = g + 1 := ⟨fuel - 1, by
        have := ser_length_pos (.arr (.cons x tl)); omega⟩
      have hp := ser_length_pos x
      have hlen : 1 + (Json.ser x).length + (serElemsTail tl).length + 1 ≤ G + 1 := by
        simp [Json.ser] at hf
        omega
      have hshape : Json.ser (.arr (.cons x tl)) ++ r =
          '[' :: (Json.ser x ++ (serElemsTail tl ++ ']' :: r)) := by
        simp [Json.ser]
      rw [hshape]
      have harm : ∀ X, parseValue (G + 1) ('[' :: X) =
          (match X.dropWhile isWsJson with
           | ']' :: r2 => some (.arr .nil, r2)
           | r1 => do
              let (vv, r2) ← parseValue G r1
              let (l, r3) ← parseElemsTail G r2
              pure (.arr (.cons vv l), r3)) := fun _ => rfl
      rw [harm]
      obtain ⟨c, t, hct, hws, hbr⟩ := ser_head_shape x
      have hY : Json.ser x ++ (serElemsTail tl ++ ']' :: r) =
          c :: (t ++ (serElemsTail tl ++ ']' :: r)) := by rw [hct]; rfl
      rw [hY, dropWhile_cons_of_neg _ _ _ hws]
      split
      · rename_i heq
        rw [List.cons.injEq] at heq
        exact absurd heq.1 hbr
      · rw [← hY, parseValue_ser x G _ (by omega) (elemsTail_bracket_takeWhile tl r)]
        simp only [Option.bind_eq_bind, Option.some_bind]
        rw [parseElemsTail_ser tl G r (by omega)]
        rfl
  | obj fs =>
    cases fs with
    | nil =>
      intro fuel r hf hr
      obtain ⟨G, rfl⟩ : ∃ g, fuel = g + 1 := ⟨fuel - 1, by simp [Json.ser] at hf; omega⟩
      rfl
    | cons k v tl =>
      intro fuel r hf hr
      obtain ⟨G, rfl⟩ : ∃ g, fuel = g + 1 := ⟨fuel - 1, by
        have := ser_length_pos (.obj (.cons k v tl)); omega⟩
      have hp := ser_length_pos v
      have hlen : 1 + (Json.ser v).length + (serFieldsTail tl).length + 1 ≤ G + 1 := by
        simp [Json.ser, strChars] at hf ⊢
        omega
      obtain ⟨d⟩ := k
      have hshape : Json.ser (.obj (.cons (String.mk d) v tl)) ++ r =
          '\x7b' :: '"' :: ((d.map escapeChar).flatten ++
            ('"' :: (':' :: (Json.ser v ++ (serFieldsTail tl ++ '\x7d' :: r))))) := by
        simp [Json.ser, strChars]
      rw [hshape]
      have harm2 : ∀ X, parseValue (G + 1) ('\x7b' :: '"' :: X) = (do
          let (kk, r2) ← parseStringRest X
          match r2.dropWhile isWsJson with
          | ':' :: r3 => do
            let (vv, r4) ← parseValue G (r3.dropWhile isWsJson)
            let (ffs, r5) ← parseFieldsTail G r4
            pure (Json.obj (JsonFields.cons (String.mk kk) vv ffs), r5)
          | _ => none) := fun _ => rfl
      rw [harm2, parseStringRest_round]
      simp only [Option.bind_eq_bind, Option.some_bind]
      rw [dropWhile_cons_of_neg isWsJson ':' _ (by decide)]
      split
      · rename_i r3 heq
        rw [List.cons.injEq] at heq
        obtain ⟨-, hr3⟩ := heq
        subst hr3
        obtain ⟨c, t, hct, hws, hbr⟩ := ser_head_shape v
        have hY : Json.ser v ++ (serFieldsTail tl ++ '\x7d' :: r) =
            c :: (t ++ (serFieldsTail tl ++ '\x7d' :: r)) := by rw [hct]; rfl
        rw [hY, dropWhile_cons_of_neg _ _ _ hws, ← hY,
          parseValue_ser v G _ (by omega) (fieldsTail_brace_takeWhile tl r)]
        simp only [Option.bind_eq_bind, Option.some_bind]
        rw [parseFieldsTail_ser tl G r (by omega)]
        rfl
      · rename_i hno
        exact (hno _ rfl).elim
theorem parseElemsTail_ser (xs : JsonList) : ∀ (fuel : Nat) (r : List Char),
    (serElemsTail xs).length + 1 ≤ fuel →
    parseElemsTail fuel (serElemsTail xs ++ ']' :: r) = some (xs, r) := by
  cases xs with
  | nil =>
    intro fuel r hf
    obtain ⟨G, rfl⟩ : ∃ g, fuel = g + 1 := ⟨fuel - 1, by omega⟩
    rfl
  | cons y ys =>
    intro fuel r hf
    obtain ⟨G, rfl⟩ : ∃ g, fuel = g + 1 := ⟨fuel - 1, by omega⟩
    have hp := ser_length_pos y
    have hlen : 1 + (Json.ser y).length + (serElemsTail ys).length + 1 ≤ G + 1 := by
      simp [serElemsTail] at hf
      omega
    have hshape : serElemsTail (.cons y ys) ++ ']' :: r =
        ',' :: (Json.ser y ++ (serElemsTail ys ++ ']' :: r)) := by
      simp [serElemsTail]
    rw [hshape]
    have harm : ∀ X, parseElemsTail (G + 1) (',' :: X) = (do
        let (vv, r1) ← parseValue G (X.dropWhile isWsJson)
        let (l, r2) ← parseElemsTail G r1
        pure (JsonList.cons vv l, r2)) := fun _ => rfl
    rw [harm]
    obtain ⟨c, t, hct, hws, hbr⟩ := ser_head_shape y
    have hY : Json.ser y ++ (serElemsTail ys ++ ']' :: r) =
        c :: (t ++ (serElemsTail ys ++ ']' :: r)) := by rw [hct]; rfl
    rw [hY, dropWhile_cons_of_neg _ _ _ hws, ← hY,
      parseValue_ser y G _ (by omega) (elemsTail_bracket_takeWhile ys r)]
    simp only [Option.bind_eq_bind, Option.some_bind]
    rw [parseElemsTail_ser ys G r (by omega)]
    rfl
theorem parseFieldsTail_ser (fs : JsonFields) : ∀ (fuel : Nat) (r : List Char),
    (serFieldsTail fs).length + 1 ≤ fuel →
    parseFieldsTail fuel (serFieldsTail fs ++ '\x7d' :: r) = some (fs, r) := by
  cases fs with
  | nil =>
    intro fuel r hf
    obtain ⟨G, rfl⟩ : ∃ g, fuel = g + 1 := ⟨fuel - 1, by omega⟩
    rfl
  | cons k v tl =>
    intro fuel r hf
    obtain ⟨G, rfl⟩ : ∃ g, fuel = g + 1 := ⟨fuel - 1, by omega⟩
    have hp := ser_length_pos v
    have hlen : 1 + (Json.ser v).length + (serFieldsTail tl).length + 1 ≤ G + 1 := by
      simp [serFieldsTail, strChars] at hf ⊢
      omega
    obtain ⟨d⟩ := k
    have hshape : serFieldsTail (.cons (String.mk d) v tl) ++ '\x7d' :: r =
        ',' :: '"' :: ((d.map escapeChar).flatten ++
          ('"' :: (':' :: (Json.ser v ++ (serFieldsTail tl ++ '\x7d' :: r))))) := by
      simp [serFieldsTail, strChars]
    rw [hshape]
    have harm : ∀ X, parseFieldsTail (G + 1) (',' :: '"' :: X) = (do
        let (kk, r2) ← parseStringRest X
        match r2.dropWhile isWsJson with
        | ':' :: r3 => do
          let (vv, r4) ← parseValue G (r3.dropWhile isWsJson)
          let (ffs, r5) ← parseFieldsTail G r4
          pure (JsonFields.cons (String.mk kk) vv ffs, r5)
        | _ => none) := fun _ => rfl
    rw [harm, parseStringRest_round]
    simp only [Option.bind_eq_bind, Option.some_bind]
    rw [dropWhile_cons_of_neg isWsJson ':' _ (by decide)]
    split
    · rename_i r3 heq
      rw [List.cons.injEq] at heq
      obtain ⟨-, hr3⟩ := heq
      subst hr3
      obtain ⟨c, t, hct, hws, hbr⟩ := ser_head_shape v
      have hY : Json.ser v ++ (serFieldsTail tl ++ '\x7d' :: r) =
          c :: (t ++ (serFieldsTail tl ++ '\x7d' :: r)) := by rw [hct]; rfl
      rw [hY, dropWhile_cons_of_neg _ _ _ hws, ← hY,
        parseValue_ser v G _ (by omega) (fieldsTail_brace_takeWhile tl r)]
      simp only [Option.bind_eq_bind, Option.some_bind]
      rw [parseFieldsTail_ser tl G r (by omega)]
      rfl
    · rename_i hno
      exact (hno _ rfl).elim
end

theorem parseJsonChars_ser (v : Json) : parseJsonChars (Json.ser v) = some v := by
  obtain ⟨c, t, hct, hws, -⟩ := ser_head_shape v
  unfold parseJsonChars
  rw [hct, dropWhile_cons_of_neg _ _ _ hws, ← hct]
  have h1 : parseValue ((Json.ser v).length + 1) (Json.ser v ++ []) = some (v, []) :=
    parseValue_ser v _ [] (by omega) rfl
  rw [List.append_nil] at h1
  rw [h1]
  rfl

theorem stripTC_cons_ne (c : Char) (rest : List Char) (hc : c ≠ ',') :
    stripTrailingCommas (c :: rest) = c :: stripTrailingCommas rest := by
  rw [stripTrailingCommas.eq_def]
  split
  · rename_i heq
    exact absurd heq (by simp)
  · rename_i heq
    rw [List.cons.injEq] at heq
    exact absurd heq.1 hc
  · rename_i heq
    rw [List.cons.injEq] at heq
    rw [heq.1, heq.2]

theorem hasTCP_cons_ne (c : Char) (rest : List Char) (hc : c ≠ ',') :
    hasTrailingCommaPat (c :: rest) = hasTrailingCommaPat rest := by
  rw [hasTrailingCommaPat.eq_def]
  split
  · rename_i heq
    exact absurd heq (by simp)
  · rename_i heq
    rw [List.cons.injEq] at heq
    exact absurd heq.1 hc
  · rename_i heq
    rw [List.cons.injEq] at heq
    rw [heq.2]

theorem stripTrailingCommas_id (s : List Char)
    (h : hasTrailingCommaPat s = false) : stripTrailingCommas s = s := by
  induction s with
  | nil => rfl
  | cons c rest ih =>
    by_cases hc : c = ','
    · subst hc
      have hpat : ((match rest.dropWhile isWsRegex with
          | '\x7d' :: _ => true
          | ']' :: _ => true
          | _ => false) || hasTrailingCommaPat rest) = false := h
      rw [Bool.or_eq_false_iff] at hpat
      obtain ⟨h1, h2⟩ := hpat
      show (match rest.dropWhile isWsRegex with
        | '\x7d' :: _ => stripTrailingCommas rest
        | ']' :: _ => stripTrailingCommas rest
        | _ => ',' :: stripTrailingCommas rest) = ',' :: rest
      split
      · rename_i heq
        rw [heq] at h1
        cases h1
      · rename_i heq
        rw [heq] at h1
        cases h1
      · rw [ih h2]
    · rw [stripTC_cons_ne c rest hc]
      rw [hasTCP_cons_ne c rest hc] at h
      rw [ih h]

theorem ser_obj_shape (fs : JsonFields) :
    ∃ mid, Json.ser (.obj fs) = '\x7b' :: mid ++ ['\x7d'] := by
  cases fs with
  | nil => exact ⟨[], rfl⟩
  | cons k v tl =>
    refine ⟨strChars k ++ ':' :: Json.ser v ++ serFieldsTail tl, ?_⟩
    simp [Json.ser]

theorem extractCandidate_wrapped (mid : List Char) :
    extractCandidate ('\x7b' :: mid ++ ['\x7d']) = some ('\x7b' :: mid ++ ['\x7d']) := by
  simp only [extractCandidate]
  rw [List.cons_append, dropWhile_cons_of_neg _ _ _ (by decide), ← List.cons_append]
  have hrev : (('\x7b' :: mid) ++ ['\x7d']).reverse = '\x7d' :: ('\x7b' :: mid).reverse := by
    simp
  rw [hrev, dropWhile_cons_of_neg _ _ _ (by decide), ← hrev, List.reverse_reverse]
  simp

theorem responseParser_ser_obj (fs : JsonFields)
    (h : hasTrailingCommaPat (Json.ser (.obj fs)) = false) :
    parseJsonResponse (String.mk (Json.ser (.obj fs))) = .ok (.obj fs) := by
  obtain ⟨mid, hmid⟩ := ser_obj_shape fs
  have hext : extractCandidate (Json.ser (.obj fs)) = some (Json.ser (.obj fs)) := by
    rw [hmid]
    exact extractCandidate_wrapped mid
  have hdata : (String.mk (Json.ser (.obj fs))).data = Json.ser (.obj fs) := rfl
  simp only [parseJsonResponse, hdata, hext, stripTrailingCommas_id _ h,
    parseJsonChars_ser]

theorem batchesOfAux_flatten_map {α β} (f : α → β) :
    ∀ (fuel : Nat) (l : List α), l.length ≤ fuel →
    ((batchesOfAux fuel l).map (fun b => b.map f)).flatten = l.map f := by
  intro fuel
  induction fuel with
  | zero =>
    intro l hl
    have hnil : l = [] := List.eq_nil_of_length_eq_zero (by omega)
    subst hnil
    rfl
  | succ g ih =>
    intro l hl
    cases l with
    | nil => rfl
    | cons a t =>
      have harm : batchesOfAux (g + 1) (a :: t) =
          (a :: t).take 5 :: batchesOfAux g ((a :: t).drop 5) := rfl
      rw [harm]
      simp only [List.map_cons, List.flatten_cons]
      rw [ih _ (by simp [List.length_drop] at hl ⊢; omega), ← List.map_append,
        List.take_append_drop]
      rfl

theorem batchesOf_flatten_map {α β} (f : α → β) (l : List α) :
    ((batchesOf l).map (fun b => b.map f)).flatten = l.map f :=
  batchesOfAux_flatten_map f l.length l (le_refl _)

theorem enrichEntry_cases (lib : List LibMovie)
    (oracle : LibMovie → String → String → Except String String)
    (occ dp : String) (e : SelEntry) :
    (∃ m, movieFind lib e.movieId = some m ∧
      ((∃ j, generateMoviePairings oracle m occ dp = .ok j ∧
          enrichEntry lib oracle occ dp e = pairedEntry e j) ∨
       (∃ err, generateMoviePairings oracle m occ dp = .error err ∧
          enrichEntry lib oracle occ dp e = emptyPairingEntry e)))
    ∨ (movieFind lib e.movieId = none ∧
        enrichEntry lib oracle occ dp e = emptyPairingEntry e) := by
  cases hm : movieFind lib e.movieId with
  | none => exact Or.inr ⟨rfl, by simp [enrichEntry, hm]⟩
  | some m =>
    left
    refine ⟨m, rfl, ?_⟩
    cases hp : generateMoviePairings oracle m occ dp with
    | ok j => exact Or.inl ⟨j, rfl, by simp [enrichEntry, hm, hp]⟩
    | error err => exact Or.inr ⟨err, rfl, by simp [enrichEntry, hm, hp]⟩

theorem enrichEntry_ok (lib : List LibMovie)
    (oracle : LibMovie → String → String → Except String String)
    (occ dp : String) (e : SelEntry) (m : LibMovie) (j : Json)
    (hm : movieFind lib e.movieId = some m)
    (hok : generateMoviePairings oracle m occ dp = .ok j) :
    enrichEntry lib oracle occ dp e = pairedEntry e j := by
  simp [enrichEntry, hm, hok]

theorem enrichEntry_fail (lib : List LibMovie)
    (oracle : LibMovie → String → String → Except String String)
    (occ dp : String) (e : SelEntry) (m : LibMovie) (err : String)
    (hm : movieFind lib e.movieId = some m)
    (hfail : generateMoviePairings oracle m occ dp = .error err) :
    enrichEntry lib oracle occ dp e = emptyPairingEntry e := by
  simp [enrichEntry, hm, hfail]

theorem enrichEntry_skeleton (lib : List LibMovie)
    (oracle : LibMovie → String → String → Except String String)
    (occ dp : String) (e : SelEntry) :
    entrySkeleton (enrichEntry lib oracle occ dp e) = e := by
  rcases enrichEntry_cases lib oracle occ dp e with
    ⟨m, -, ⟨j, -, hee⟩ | ⟨err, -, hee⟩⟩ | ⟨-, hee⟩ <;>
    rw [hee] <;> cases e <;> rfl

theorem enrichEntry_movieId (lib : List LibMovie)
    (oracle : LibMovie → String → String → Except String String)
    (occ dp : String) (e : SelEntry) :
    (enrichEntry lib oracle occ dp e).movieId = e.movieId := by
  have h := congrArg SelEntry.movieId (enrichEntry_skeleton lib oracle occ dp e)
  exact h

theorem generateMarathon_ok_eq (p : Preferences) (lib : List LibMovie) (nowMs : Nat)
    (run : OracleRun) (sel : Selection) (hsel : run.stage1 = .ok sel) :
    generateMarathon p lib true nowMs run =
      (.ok { name := strOrDefault sel.name (strOrDefault p.occasion ("Movie") ++ (" Marathon")),
             holiday := strOrDefault sel.holiday ("custom"),
             startDate := normStartDate p nowMs,
             endDate := normEndDate p nowMs,
             entries := (validEntriesOf lib sel).map
               (enrichEntry lib run.stage2 (strOrDefault p.occasion ("movie"))
                 (derivedDrinkPref p.drinkPreference)) },
       .stage1 (pickTarget (computeNumDays p nowMs) lib.length) ::
         (validEntriesOf lib sel).filterMap
           (fun e => (movieFind lib e.movieId).map
             (fun m => OracleCall.stage2 m.id (strOrDefault p.occasion ("movie"))
               (derivedDrinkPref p.drinkPreference)))) := by
  simp only [generateMarathon, hsel, batchesOf_flatten_map]
  rfl

theorem generateMarathon_err_eq (p : Preferences) (lib : List LibMovie) (nowMs : Nat)
    (run : OracleRun) (err : String) (hsel : run.stage1 = .error err) :
    generateMarathon p lib true nowMs run =
      (.error err, [.stage1 (pickTarget (computeNumDays p nowMs) lib.length)]) := by
  simp only [generateMarathon, hsel]
  rfl

theorem map_filter_comm {α β} (f : α → β) (p : β → Bool) (l : List α) :
    (l.filter (fun a => p (f a))).map f = (l.map f).filter p := by
  induction l with
  | nil => rfl
  | cons a t ih => by_cases h : p (f a) <;> simp [List.filter_cons, h, ih]

/-- C1: for every schedule entry of the marathon generateMarathon returns,
the movieId is one of the supplied library ids; the entry sequence is
exactly the stage-1 selection with the entries whose movieId is absent
from the library dropped (never corrected), in the selection order. -/
theorem C1_hallucination_guard (p : Preferences) (lib : List LibMovie) (nowMs : Nat)
    (run : OracleRun) (sel : Selection) (m : MarathonOut)
    (hsel : run.stage1 = .ok sel)
    (hm : (generateMarathon p lib true nowMs run).1 = .ok m) :
    m.entries.map (fun e => e.movieId) =
      (sel.entries.map (fun e => e.movieId)).filter
        (fun id => (lib.map (fun mv => mv.id)).contains id)
    ∧ ∀ e ∈ m.entries, e.movieId ∈ lib.map (fun mv => mv.id) := by
  rw [generateMarathon_ok_eq p lib nowMs run sel hsel] at hm
  have hrec := Except.ok.inj hm
  have hment : m.entries = (validEntriesOf lib sel).map
      (enrichEntry lib run.stage2 (strOrDefault p.occasion ("movie"))
        (derivedDrinkPref p.drinkPreference)) := by
    rw [← hrec]
  constructor
  · rw [hment, List.map_map]
    exact (List.map_congr_left (fun e _ => enrichEntry_movieId lib run.stage2
        (strOrDefault p.occasion ("movie")) (derivedDrinkPref p.drinkPreference) e)).trans
      (map_filter_comm (fun e => e.movieId)
        (fun id => (lib.map (fun mv => mv.id)).contains id) sel.entries)
  · intro e he
    rw [hment] at he
    obtain ⟨e0, he0, rfl⟩ := List.mem_map.1 he
    rw [enrichEntry_movieId]
    have he0f : e0 ∈ sel.entries.filter
        (fun e => (lib.map (fun mv => mv.id)).contains e.movieId) := he0
    have hc := (List.mem_filter.1 he0f).2
    simp [List.contains] at hc
    simpa [List.mem_map] using hc

/-- C2: once stage 1 succeeds, generateMarathon always produces a
marathon; its entry list is the validated list enriched entrywise, so
length, movieId sequence and order never depend on stage-2 outcomes; an
entry whose pairing call or parse fails keeps an empty drinks array and
a null food while the others carry their parsed pairing data. -/
theorem C2_stage2_failure_isolation (p : Preferences) (lib : List LibMovie) (nowMs : Nat)
    (run : OracleRun) (sel : Selection) (hsel : run.stage1 = .ok sel) :
    ∃ m, (generateMarathon p lib true nowMs run).1 = .ok m
      ∧ m.entries = (validEntriesOf lib sel).map
          (enrichEntry lib run.stage2 (strOrDefault p.occasion ("movie"))
            (derivedDrinkPref p.drinkPreference))
      ∧ m.entries.map entrySkeleton = validEntriesOf lib sel
      ∧ m.entries.length = (validEntriesOf lib sel).length
      ∧ (∀ e mv err, movieFind lib e.movieId = some mv →
          generateMoviePairings run.stage2 mv (strOrDefault p.occasion ("movie"))
            (derivedDrinkPref p.drinkPreference) = .error err →
          enrichEntry lib run.stage2 (strOrDefault p.occasion ("movie"))
            (derivedDrinkPref p.drinkPreference) e = emptyPairingEntry e)
      ∧ (∀ e mv j, movieFind lib e.movieId = some mv →
          generateMoviePairings run.stage2 mv (strOrDefault p.occasion ("movie"))
            (derivedDrinkPref p.drinkPreference) = .ok j →
          enrichEntry lib run.stage2 (strOrDefault p.occasion ("movie"))
            (derivedDrinkPref p.drinkPreference) e = pairedEntry e j) := by
  refine ⟨_, by rw [generateMarathon_ok_eq p lib nowMs run sel hsel], rfl, ?_, ?_, ?_, ?_⟩
  · rw [List.map_map]
    exact (List.map_congr_left (fun e _ => enrichEntry_skeleton lib run.stage2
        (strOrDefault p.occasion ("movie")) (derivedDrinkPref p.drinkPreference) e)).trans
      (List.map_id _)
  · rw [List.length_map]
  · intro e mv err hm hp
    exact enrichEntry_fail lib run.stage2 _ _ e mv err hm hp
  · intro e mv j hm hp
    exact enrichEntry_ok lib run.stage2 _ _ e mv j hm hp

/-- Witness for C1: the fixture run carries one hallucinated id, which
is dropped while the two valid entries survive in order. -/
theorem C1_hallucination_guard_witness :
    wRun.stage1 = .ok wSel
    ∧ (generateMarathon wPrefs wLib true 0 wRun).1 = .ok wMarathon
    ∧ (wMarathon.entries.map (fun e => e.movieId) =
        (wSel.entries.map (fun e => e.movieId)).filter
          (fun id => (wLib.map (fun mv => mv.id)).contains id)
      ∧ ∀ e ∈ wMarathon.entries, e.movieId ∈ wLib.map (fun mv => mv.id)) :=
  ⟨by decide, by decide,
   C1_hallucination_guard wPrefs wLib 0 wRun wSel wMarathon (by decide) (by decide)⟩

/-- Witness for C2: in the fixture run the first movie's pairing call
fails and the second succeeds, and the marathon is still complete. -/
theorem C2_stage2_failure_isolation_witness :
    wRun.stage1 = .ok wSel
    ∧ (∃ m, (generateMarathon wPrefs wLib true 0 wRun).1 = .ok m
      ∧ m.entries = (validEntriesOf wLib wSel).map
          (enrichEntry wLib wRun.stage2 (strOrDefault wPrefs.occasion ("movie"))
            (derivedDrinkPref wPrefs.drinkPreference))
      ∧ m.entries.map entrySkeleton = validEntriesOf wLib wSel
      ∧ m.entries.length = (validEntriesOf wLib wSel).length
      ∧ (∀ e mv err, movieFind wLib e.movieId = some mv →
          generateMoviePairings wRun.stage2 mv (strOrDefault wPrefs.occasion ("movie"))
            (derivedDrinkPref wPrefs.drinkPreference) = .error err →
          enrichEntry wLib wRun.stage2 (strOrDefault wPrefs.occasion ("movie"))
            (derivedDrinkPref wPrefs.drinkPreference) e = emptyPairingEntry e)
      ∧ (∀ e mv j, movieFind wLib e.movieId = some mv →
          generateMoviePairings wRun.stage2 mv (strOrDefault wPrefs.occasion ("movie"))
            (derivedDrinkPref wPrefs.drinkPreference) = .ok j →
          enrichEntry wLib wRun.stage2 (strOrDefault wPrefs.occasion ("movie"))
            (derivedDrinkPref wPrefs.drinkPreference) e = pairedEntry e j)) :=
  ⟨by decide, C2_stage2_failure_isolation wPrefs wLib 0 wRun wSel (by decide)⟩

/-- C3 counterexample: with the end date five days before the start date
the computed day count is negative, yet the pipeline raises no error,
issues the stage-1 oracle call, and returns a marathon. -/
theorem C3_invalid_date_range_counterexample :
    computeNumDays ⟨some ("movie"), some 10, some 5, none, none, .undef, none, none, none⟩ 0 = -4
    ∧ ((generateMarathon ⟨some ("movie"), some 10, some 5, none, none, .undef,
        none, none, none⟩ wLib true 0 wRun).1).toOption.isSome = true
    ∧ (generateMarathon ⟨some ("movie"), some 10, some 5, none, none, .undef,
        none, none, none⟩ wLib true 0 wRun).2 ≠ [] :=
  ⟨by decide, by decide, by decide⟩

/-- C3 amended: generateMarathon performs no date-range validation; with
a usable credential the stage-1 oracle call is always issued first, its
selection target computed from the possibly negative day count, and a
successful stage 1 yields a marathon whatever the date range. -/
theorem C3_no_date_range_guard (p : Preferences) (lib : List LibMovie) (nowMs : Nat)
    (run : OracleRun) :
    ((generateMarathon p lib true nowMs run).2).head? =
      some (.stage1 (pickTarget (computeNumDays p nowMs) lib.length))
    ∧ (∀ sel, run.stage1 = .ok sel →
        ((generateMarathon p lib true nowMs run).1).toOption.isSome = true) := by
  constructor
  · cases hs : run.stage1 with
    | ok sel =>
      rw [generateMarathon_ok_eq p lib nowMs run sel hs]
      rfl
    | error err =>
      rw [generateMarathon_err_eq p lib nowMs run err hs]
      rfl
  · intro sel hs
    rw [generateMarathon_ok_eq p lib nowMs run sel hs]
    rfl

/-- Witness for C3: the amended statement evaluated on the fixture run
with a negative day count. -/
theorem C3_no_date_range_guard_witness :
    ((generateMarathon ⟨some ("movie"), some 10, some 5, none, none, .undef,
        none, none, none⟩ wLib true 0 wRun).2).head? =
      some (.stage1 (pickTarget (computeNumDays ⟨some ("movie"), some 10, some 5,
        none, none, .undef, none, none, none⟩ 0) wLib.length))
    ∧ ((generateMarathon ⟨some ("movie"), some 10, some 5, none, none, .undef,
        none, none, none⟩ wLib true 0 wRun).1).toOption.isSome = true :=
  ⟨(C3_no_date_range_guard ⟨some ("movie"), some 10, some 5, none, none, .undef,
      none, none, none⟩ wLib 0 wRun).1,
   (C3_no_date_range_guard ⟨some ("movie"), some 10, some 5, none, none, .undef,
      none, none, none⟩ wLib 0 wRun).2 wSel (by decide)⟩

/-- C4 counterexample: on a candidate holding a raw control character
inside a string literal, the implemented repair replaces the character
with a space while the stated removal semantics deletes it, and the two
results differ. -/
theorem C4_response_parser_counterexample :
    parseJsonResponse ("\x7b\"a\":\"x\x01y\"\x7d") =
      .ok (.obj (.cons ("a") (.str ("x y")) .nil))
    ∧ responseParserSteps removeCtlChars ("\x7b\"a\":\"x\x01y\"\x7d") =
      .ok (.obj (.cons ("a") (.str ("xy")) .nil))
    ∧ parseJsonResponse ("\x7b\"a\":\"x\x01y\"\x7d") ≠
      responseParserSteps removeCtlChars ("\x7b\"a\":\"x\x01y\"\x7d") :=
  ⟨by decide, by decide, by decide⟩

/-- C4 amended: the parser follows the five stated steps with step four
replacing each control character by a space rather than removing it;
the result is exactly the steps procedure instantiated with the
space-replacement repair. -/
theorem C4_response_parser_amended :
    ∀ text, parseJsonResponse text = responseParserSteps replaceCtlChars text :=
  fun _ => rfl

/-- C5 counterexample: the trailing-comma repair runs on raw text and
corrupts a string field whose content holds a comma followed by a
closing brace, so parsing the serialization of that object returns a
different object. -/
theorem C5_parser_idempotence_counterexample :
    parseJsonResponse (String.mk (Json.ser (.obj (.cons ("a") (.str (",\x7d")) .nil))))
      = .ok (.obj (.cons ("a") (.str ("\x7d")) .nil))
    ∧ Json.obj (.cons ("a") (.str ("\x7d")) .nil) ≠
        Json.obj (.cons ("a") (.str (",\x7d")) .nil)
    ∧ parseJsonResponse (String.mk (Json.ser (.obj (.cons ("a") (.str (",\x7d")) .nil))))
      ≠ .ok (.obj (.cons ("a") (.str (",\x7d")) .nil)) :=
  ⟨by decide, by decide, by decide⟩

/-- C5 amended: parsing the serialization of a JSON object returns an
equal object whenever the serialization contains no occurrence of the
trailing-comma pattern, a comma followed by optional whitespace and a
closing brace or bracket; only string contents can produce that
pattern in a serialization. -/
theorem C5_parser_idempotence_amended (fs : JsonFields)
    (h : hasTrailingCommaPat (Json.ser (.obj fs)) = false) :
    parseJsonResponse (String.mk (Json.ser (.obj fs))) = .ok (.obj fs) :=
  responseParser_ser_obj fs h

/-- Witness for C5: a two-field object with a comma inside a string
field, still free of the trailing-comma pattern, parses back to itself. -/
theorem C5_parser_idempotence_witness :
    hasTrailingCommaPat (Json.ser (.obj (.cons ("a") (.num 1)
      (.cons ("b") (.str ("x,y")) .nil)))) = false
    ∧ parseJsonResponse (String.mk (Json.ser (.obj (.cons ("a") (.num 1)
        (.cons ("b") (.str ("x,y")) .nil)))))
      = .ok (.obj (.cons ("a") (.num 1) (.cons ("b") (.str ("x,y")) .nil))) :=
  ⟨by decide, C5_parser_idempotence_amended
    (.cons ("a") (.num 1) (.cons ("b") (.str ("x,y")) .nil)) (by decide)⟩

/-- C6 counterexample: with a start date given and the end date absent
the normalized end date is the current date plus seven days, not the
start date plus seven days. -/
theorem C6_date_defaults_counterexample :
    normStartDate ⟨none, some 100, none, none, none, .undef, none, none, none⟩ 0 = 100
    ∧ normEndDate ⟨none, some 100, none, none, none, .undef, none, none, none⟩ 0 = 7
    ∧ (7 : Int) ≠ 100 + 7 :=
  ⟨by decide, by decide, by decide⟩

/-- C6 amended: an absent start date defaults to the current date, and
an absent end date defaults to the current date plus seven days,
independently of the start date. -/
theorem C6_date_defaults_amended (p : Preferences) (nowMs : Nat) :
    (p.startDate = none → normStartDate p nowMs = dayOfMs nowMs)
    ∧ (p.endDate = none → normEndDate p nowMs = dayOfMs nowMs + 7) := by
  constructor
  · intro h
    simp only [normStartDate, h, Option.getD_none]
  · intro h
    simp only [normEndDate, h, Option.getD_none]
    unfold dayOfMs
    omega

/-- Witness for C6: both defaults evaluated at a concrete clock reading
one day and a fraction past the epoch. -/
theorem C6_date_defaults_witness :
    normStartDate ⟨none, none, none, none, none, .undef, none, none, none⟩ 86400123
      = dayOfMs 86400123
    ∧ normEndDate ⟨none, none, none, none, none, .undef, none, none, none⟩ 86400123
      = dayOfMs 86400123 + 7 :=
  ⟨(C6_date_defaults_amended ⟨none, none, none, none, none, .undef, none, none, none⟩
      86400123).1 rfl,
   (C6_date_defaults_amended ⟨none, none, none, none, none, .undef, none, none, none⟩
      86400123).2 rfl⟩

/-- C7: with both normalized dates present and ordered, the day count is
the inclusive difference plus one, and the selection count requested
from the stage-1 oracle is the minimum of the day count and the library
size. -/
theorem C7_day_count_and_target (p : Preferences) (nowMs : Nat) (lib : List LibMovie)
    (run : OracleRun) (d1 d2 : Int)
    (h1 : normStartDate p nowMs = d1) (h2 : normEndDate p nowMs = d2) (hle : d1 ≤ d2) :
    computeNumDays p nowMs = d2 - d1 + 1
    ∧ pickTarget (computeNumDays p nowMs) lib.length = min (d2 - d1 + 1) (lib.length : Int)
    ∧ ((generateMarathon p lib true nowMs run).2).head? =
        some (.stage1 (min (d2 - d1 + 1) (lib.length : Int))) := by
  have hnum : computeNumDays p nowMs = d2 - d1 + 1 := by
    unfold computeNumDays
    rw [h1, h2]
    omega
  refine ⟨hnum, by rw [hnum]; rfl, ?_⟩
  cases hs : run.stage1 with
  | ok sel =>
    rw [generateMarathon_ok_eq p lib nowMs run sel hs]
    simp [hnum, pickTarget]
  | error err =>
    rw [generateMarathon_err_eq p lib nowMs run err hs]
    simp [hnum, pickTarget]

/-- Witness for C7, at the scenario of the specification: a three-movie
library with a ten-day inclusive range yields a selection target of
three. -/
theorem C7_day_count_and_target_witness :
    normStartDate ⟨none, some 0, some 9, none, none, .undef, none, none, none⟩ 0 = 0
    ∧ normEndDate ⟨none, some 0, some 9, none, none, .undef, none, none, none⟩ 0 = 9
    ∧ (0 : Int) ≤ 9
    ∧ (computeNumDays ⟨none, some 0, some 9, none, none, .undef, none, none, none⟩ 0
        = 9 - 0 + 1
      ∧ pickTarget (computeNumDays ⟨none, some 0, some 9, none, none, .undef,
          none, none, none⟩ 0) wLib3.length = min (9 - 0 + 1) (wLib3.length : Int)
      ∧ ((generateMarathon ⟨none, some 0, some 9, none, none, .undef, none, none, none⟩
          wLib3 true 0 wRun).2).head? = some (.stage1 (min (9 - 0 + 1) (wLib3.length : Int))))
    ∧ pickTarget (computeNumDays ⟨none, some 0, some 9, none, none, .undef,
        none, none, none⟩ 0) wLib3.length = 3 :=
  ⟨by decide, by decide, by decide,
   C7_day_count_and_target ⟨none, some 0, some 9, none, none, .undef, none, none, none⟩
     0 wLib3 wRun 0 9 (by decide) (by decide) (by decide),
   by decide⟩

/-- C8 counterexample: the route reads the millisecond clock three
separate times, so a clock tick between the createdAt and updatedAt
reads leaves the two timestamps unequal, and two assemblies of
different results whose first reads land in the same millisecond
receive the same identity, so the identity is not fresh. -/
theorem C8_marathon_assembly_counterexample :
    (assembleStoredMarathon wMarathon 5 5 6).createdAt
      ≠ (assembleStoredMarathon wMarathon 5 5 6).updatedAt
    ∧ wMarathon.name ≠ wMarathon2.name
    ∧ (assembleStoredMarathon wMarathon 5 5 5).id
      = (assembleStoredMarathon wMarathon2 5 5 5).id := by
  refine ⟨by decide, by decide, rfl⟩

/-- C8 amended: assembly evaluates three separate clock reads in the
order the object literal is written: the identity is marathon- followed
by the decimal first read, createdAt is the second read and updatedAt
the third, so the timestamps coincide exactly when those two reads
return the same millisecond; identities from distinct first-read
milliseconds are distinct while same-millisecond first reads collide;
and the generated marathon falls back to the occasion-based name and
the custom holiday tag when the stage-1 response omits them. -/
theorem C8_marathon_assembly_amended (res res2 : MarathonOut) (t1 t2 t3 u1 : Nat)
    (p : Preferences) (lib : List LibMovie) (nowMs : Nat) (run : OracleRun)
    (sel : Selection) (m : MarathonOut)
    (hsel : run.stage1 = .ok sel)
    (hm : (generateMarathon p lib true nowMs run).1 = .ok m) :
    (assembleStoredMarathon res t1 t2 t3).id = ("marathon-") ++ String.mk (natChars t1)
    ∧ (assembleStoredMarathon res t1 t2 t3).createdAt = t2
    ∧ (assembleStoredMarathon res t1 t2 t3).updatedAt = t3
    ∧ (t2 = t3 → (assembleStoredMarathon res t1 t2 t3).createdAt
        = (assembleStoredMarathon res t1 t2 t3).updatedAt)
    ∧ (t1 ≠ u1 → (assembleStoredMarathon res t1 t2 t3).id
        ≠ (assembleStoredMarathon res2 u1 t2 t3).id)
    ∧ (assembleStoredMarathon res t1 t2 t3).id = (assembleStoredMarathon res2 t1 t2 t3).id
    ∧ (sel.name = none → m.name = strOrDefault p.occasion ("Movie") ++ (" Marathon"))
    ∧ (sel.holiday = none → m.holiday = ("custom")) := by
  rw [generateMarathon_ok_eq p lib nowMs run sel hsel] at hm
  have hrec := Except.ok.inj hm
  refine ⟨rfl, rfl, rfl, fun h => by subst h; rfl, ?_, rfl, ?_, ?_⟩
  · intro hne hid
    have hid2 : ("marathon-") ++ String.mk (natChars t1) =
        ("marathon-") ++ String.mk (natChars u1) := hid
    have hdata := congrArg String.data hid2
    rw [String.data_append, String.data_append] at hdata
    have hnc : natChars t1 = natChars u1 := by
      have hmk : (String.mk (natChars t1)).data = (String.mk (natChars u1)).data := by
        exact List.append_cancel_left hdata
      exact hmk
    exact hne (natChars_inj hnc)
  · intro h
    rw [← hrec]
    show strOrDefault sel.name (strOrDefault p.occasion ("Movie") ++ (" Marathon")) = _
    rw [h]
    rfl
  · intro h
    rw [← hrec]
    show strOrDefault sel.holiday ("custom") = _
    rw [h]
    rfl

/-- Witness for C8: assembly at concrete clock readings with a tick
between the createdAt and updatedAt reads, a distinct-millisecond id
inequality and a same-millisecond id collision, and the name and
holiday defaults on the nameless-selection fixture run. -/
theorem C8_marathon_assembly_witness :
    (assembleStoredMarathon wMarathon 5 5 6).id = ("marathon-") ++ String.mk (natChars 5)
    ∧ (assembleStoredMarathon wMarathon 5 5 6).createdAt = 5
    ∧ (assembleStoredMarathon wMarathon 5 5 6).updatedAt = 6
    ∧ (assembleStoredMarathon wMarathon 5 5 6).id ≠ (assembleStoredMarathon wMarathon2 7 5 6).id
    ∧ (assembleStoredMarathon wMarathon 5 5 6).id = (assembleStoredMarathon wMarathon2 5 5 6).id
    ∧ wMarathon2.name = strOrDefault wPrefs.occasion ("Movie") ++ (" Marathon")
    ∧ wMarathon2.holiday = ("custom") := by
  have h := C8_marathon_assembly_amended wMarathon wMarathon2 5 5 6 7 wPrefs wLib 0 wRun2
    wSelNoName wMarathon2 (by decide) (by decide)
  exact ⟨h.1, h.2.1, h.2.2.1, h.2.2.2.2.1 (by decide), h.2.2.2.2.2.1,
    h.2.2.2.2.2.2.1 rfl, h.2.2.2.2.2.2.2 rfl⟩

/-- C9 counterexample: an empty drink-preference array joins to the
empty string rather than falling back to varied, because the fallback
only applies to the non-array branch. -/
theorem C9_drink_preference_counterexample :
    derivedDrinkPref (.arr []) = ("") ∧ ("") ≠ ("varied") :=
  ⟨rfl, by decide⟩

/-- C9 amended: every stage-2 call carries the derived drink-preference
string: an array joins with comma and space, so an empty array yields
the empty string, while an absent value or an empty string falls back
to varied. -/
theorem C9_drink_preference_amended (p : Preferences) (lib : List LibMovie) (nowMs : Nat)
    (run : OracleRun) :
    (∀ call ∈ (generateMarathon p lib true nowMs run).2, ∀ id occ dp,
        call = .stage2 id occ dp → dp = derivedDrinkPref p.drinkPreference)
    ∧ (∀ tags, derivedDrinkPref (.arr tags) = String.intercalate (", ") tags)
    ∧ derivedDrinkPref .undef = ("varied")
    ∧ derivedDrinkPref (.str ("")) = ("varied")
    ∧ (∀ s, s ≠ ("") → derivedDrinkPref (.str s) = s) := by
  refine ⟨?_, fun _ => rfl, rfl, rfl, fun s hs => by simp [derivedDrinkPref, hs]⟩
  intro call hc id occ dp hcall
  subst hcall
  cases hs : run.stage1 with
  | error err =>
    rw [generateMarathon_err_eq p lib nowMs run err hs] at hc
    simp at hc
  | ok sel =>
    rw [generateMarathon_ok_eq p lib nowMs run sel hs] at hc
    simp only [List.mem_cons] at hc
    rcases hc with hc | hc
    · cases hc
    · obtain ⟨e, -, hmap⟩ := List.mem_filterMap.1 hc
      obtain ⟨mv, -, hcall2⟩ := Option.map_eq_some'.1 hmap
      cases hcall2
      rfl

/-- Witness for C9: in the fixture run the stage-2 call for the first
movie carries the drink preference joined from the two tags. -/
theorem C9_drink_preference_witness :
    OracleCall.stage2 ("m1") ("christmas") ("eggnog, cocoa")
      ∈ (generateMarathon wPrefs wLib true 0 wRun).2
    ∧ ("eggnog, cocoa") = derivedDrinkPref wPrefs.drinkPreference :=
  ⟨by decide,
   (C9_drink_preference_amended wPrefs wLib 0 wRun).1
     (.stage2 ("m1") ("christmas") ("eggnog, cocoa")) (by decide)
     ("m1") ("christmas") ("eggnog, cocoa") rfl⟩

/-- C10: when the stage-2 response parses, the entry receives exactly
the parsed drinks and food properties, a missing property staying
undefined; the empty-array and null defaults appear exactly when the
oracle call or the parse fails. -/
theorem C10_unvalidated_stage2_shape (lib : List LibMovie)
    (oracle : LibMovie → String → String → Except String String)
    (occ dp : String) (e : SelEntry) (mv : LibMovie)
    (hfind : movieFind lib e.movieId = some mv) :
    (∀ text j, oracle mv occ dp = .ok text → parseJsonResponse text = .ok j →
      enrichEntry lib oracle occ dp e = pairedEntry e j
      ∧ (pairedEntry e j).drinks = jsGet j ("drinks")
      ∧ (pairedEntry e j).food = jsGet j ("food"))
    ∧ (∀ err, oracle mv occ dp = .error err →
        enrichEntry lib oracle occ dp e = emptyPairingEntry e)
    ∧ (∀ text err, oracle mv occ dp = .ok text → parseJsonResponse text = .error err →
        enrichEntry lib oracle occ dp e = emptyPairingEntry e)
    ∧ (emptyPairingEntry e).drinks = some (.arr .nil)
    ∧ (emptyPairingEntry e).food = some .null := by
  refine ⟨?_, ?_, ?_, rfl, rfl⟩
  · intro text j ht hj
    have hok : generateMoviePairings oracle mv occ dp = .ok j := by
      unfold generateMoviePairings
      rw [ht]
      exact hj
    exact ⟨enrichEntry_ok lib oracle occ dp e mv j hfind hok, rfl, rfl⟩
  · intro err herr
    have hfail : generateMoviePairings oracle mv occ dp = .error err := by
      unfold generateMoviePairings
      rw [herr]
    exact enrichEntry_fail lib oracle occ dp e mv err hfind hfail
  · intro text err ht hperr
    have hfail : generateMoviePairings oracle mv occ dp = .error err := by
      unfold generateMoviePairings
      rw [ht]
      exact hperr
    exact enrichEntry_fail lib oracle occ dp e mv err hfind hfail

/-- Witness for C10: an oracle response that parses to an object with
neither drinks nor food leaves both properties undefined on the entry
rather than defaulting them. -/
theorem C10_unvalidated_stage2_shape_witness :
    movieFind wLib (("m1") : String) = some wMovie1
    ∧ enrichEntry wLib (fun _ _ _ => .ok ("\x7b\"x\":1\x7d")) ("movie") ("varied")
        ⟨("m1"), ("d"), none, none⟩
      = pairedEntry ⟨("m1"), ("d"), none, none⟩ (.obj (.cons ("x") (.num 1) .nil))
    ∧ (pairedEntry ⟨("m1"), ("d"), none, none⟩ (.obj (.cons ("x") (.num 1) .nil))).drinks
      = jsGet (.obj (.cons ("x") (.num 1) .nil)) ("drinks")
    ∧ jsGet (.obj (.cons ("x") (.num 1) .nil)) ("drinks") = none
    ∧ jsGet (.obj (.cons ("x") (.num 1) .nil)) ("food") = none := by
  have h := C10_unvalidated_stage2_shape wLib (fun _ _ _ => .ok ("\x7b\"x\":1\x7d"))
    ("movie") ("varied") ⟨("m1"), ("d"), none, none⟩ wMovie1 (by decide)
  have h1 := h.1 ("\x7b\"x\":1\x7d") (.obj (.cons ("x") (.num 1) .nil)) rfl (by decide)
  exact ⟨by decide, h1.1, h1.2.1, by decide, by decide⟩
